import Mathlib

/-!
# A verification of the `gh-down` status reporter

This file gives a shallow embedding, in Lean, of the incident-aggregation
pipeline of the `gh-down` command-line status reporter, and proves (or
refutes) the specified properties of that pipeline.

The repository contains several historical variants of the program stitched
together.  The variant that forms the current, coherent package is
`config.go` + `report.go` + `render.go` + the `statusClient` part of
`client.go` (its first section, containing `incidentTime`, `parseTime` and
`RecentResolvedIncidents`); those are the definitions embedded here.  The
bounded-retry fetcher `fetchJSON` exists only in the earlier variant kept in
the middle of `client.go`; it is embedded as well since the retry properties
are about it.

Modelling conventions:

* Go `string` is Lean `String`; all comparisons and case conversions are
  performed char-wise on `String.toList` (byte-wise lexicographic order on
  UTF-8 strings agrees with code-point lexicographic order).  Go's
  `strings.ToLower` / `strings.EqualFold` are Unicode-aware; the feed data
  is ASCII and the embedding uses ASCII case conversion (`Char.toLower`).
* Go `time.Time` is `Int`: nanoseconds since `0001-01-01T00:00:00Z`, which
  is Go's zero time, so `t.IsZero()` becomes `t = 0`; `time.Parse` with the
  RFC3339 layout is embedded by an explicit RFC3339 parser.
* `sort.Slice(out, less)` is an *unstable* sort: any permutation of `out`
  that is pairwise ordered by `fun a b => less b a = false` is a legal
  result.  It is embedded as `List.insertionSort` over that relation, one
  of the legal results; no theorem below depends on the order of ties.
* Fallible operations return `Except String` / `Option`.
-/

namespace GhDown

/-! ## Strings: case conversion, folding, trimming, ordering -/

/-- Char-wise lowercasing of the characters of a string
(models `strings.ToLower` on the ASCII data of the status feed). -/
def lowerChars (s : String) : List Char :=
  s.toList.map Char.toLower

/-- Models `strings.EqualFold` (ASCII case folding). -/
def eqFold (a b : String) : Bool :=
  lowerChars a == lowerChars b

/-- Is `c` white space (models `unicode.IsSpace` on ASCII data). -/
def isSpaceChar (c : Char) : Bool :=
  c == ' ' || c == '\t' || c == '\n' || c == '\r'

/-- Models `strings.TrimSpace` on the character list of a string. -/
def trimChars (cs : List Char) : List Char :=
  ((cs.dropWhile isSpaceChar).reverse.dropWhile isSpaceChar).reverse

/-- Strict lexicographic order on character lists, by code point
(models Go's `<` on strings, which is byte-wise lexicographic). -/
def charListLt : List Char → List Char → Bool
  | _, [] => false
  | [], _ :: _ => true
  | a :: as, b :: bs =>
    if a.toNat < b.toNat then true
    else if b.toNat < a.toNat then false
    else charListLt as bs

theorem charListLt_irrefl (l : List Char) : charListLt l l = false := by
  induction l with
  | nil => rfl
  | cons a as ih => simp [charListLt, ih]

theorem charListLt_asymm (a b : List Char) (h : charListLt a b = true) :
    charListLt b a = false := by
  induction a generalizing b with
  | nil =>
    cases b with
    | nil => simp [charListLt] at h
    | cons y ys => simp [charListLt]
  | cons x xs ih =>
    cases b with
    | nil => simp [charListLt] at h
    | cons y ys =>
      simp only [charListLt] at h ⊢
      by_cases hxy : x.toNat < y.toNat
      · have : ¬ y.toNat < x.toNat := by omega
        simp [hxy, this]
      · by_cases hyx : y.toNat < x.toNat
        · simp [hxy, hyx] at h
        · simp only [hxy, hyx, if_false, if_neg] at h ⊢
          simp [hxy, hyx, ih ys h]

theorem charListLt_conn (a b : List Char) (hab : charListLt a b = false)
    (hba : charListLt b a = false) : a = b := by
  induction a generalizing b with
  | nil =>
    cases b with
    | nil => rfl
    | cons y ys => simp [charListLt] at hab
  | cons x xs ih =>
    cases b with
    | nil => simp [charListLt] at hba
    | cons y ys =>
      simp only [charListLt] at hab hba
      by_cases hxy : x.toNat < y.toNat
      · simp [hxy] at hab
      · by_cases hyx : y.toNat < x.toNat
        · simp [hyx, hxy] at hba
        · simp only [hxy, hyx, if_false, if_neg] at hab hba
          have hx : x = y := by
            have hn : x.toNat = y.toNat := by omega
            exact Char.ext (UInt32.toNat.inj hn)
          rw [hx, ih ys hab hba]

theorem charListLt_split (a b c : List Char) (h : charListLt c a = true) :
    charListLt b a = true ∨ charListLt c b = true := by
  induction a generalizing b c with
  | nil =>
    cases c with
    | nil => simp [charListLt] at h
    | cons z zs => simp [charListLt] at h
  | cons x xs ih =>
    cases c with
    | nil =>
      cases b with
      | nil => exact .inl h
      | cons y ys => exact .inr (by simp [charListLt])
    | cons z zs =>
      cases b with
      | nil => exact .inl (by simp [charListLt])
      | cons y ys =>
        simp only [charListLt] at h ⊢
        by_cases hzx : z.toNat < x.toNat
        · by_cases hyx : y.toNat < x.toNat
          · exact .inl (by simp [hyx])
          · have hzy : z.toNat < y.toNat := by omega
            exact .inr (by simp [hzy])
        · by_cases hxz : x.toNat < z.toNat
          · simp [hzx, hxz] at h
          · simp only [hzx, hxz, if_false, if_neg] at h
            by_cases hyx : y.toNat < x.toNat
            · exact .inl (by simp [hyx])
            · by_cases hxy : x.toNat < y.toNat
              · have hzy : z.toNat < y.toNat := by omega
                exact .inr (by simp [hzy])
              · rcases ih ys zs h with h1 | h2
                · exact .inl (by simp [hyx, hxy, h1])
                · have h1 : ¬ z.toNat < y.toNat := by omega
                  have h2' : ¬ y.toNat < z.toNat := by omega
                  exact .inr (by simp [h1, h2', h2])

/-- `≤` transfer for the strict character-list order. -/
theorem charListLt_le_trans (a b c : List Char) (hab : charListLt b a = false)
    (hbc : charListLt c b = false) : charListLt c a = false := by
  by_contra h
  have h' : charListLt c a = true := by
    cases hca : charListLt c a with
    | false => exact absurd hca h
    | true => rfl
  rcases charListLt_split a b c h' with h1 | h2
  · rw [h1] at hab; cases hab
  · rw [h2] at hbc; cases hbc

/-! ## Time: RFC3339 parsing (models Go `time.Parse` with the
`time.RFC3339` / `time.RFC3339Nano` layouts, as used by `parseTime`).

A `Time` is `Int` nanoseconds since `0001-01-01T00:00:00Z` (Go's zero
`time.Time`), so Go's `t.IsZero()` is `t = 0`, `t.Before(u)` is `t < u`,
`t.Equal(u)` is `t = u` and `t.After(u)` is `u < t`. -/

/-- Read exactly `width` ASCII digits, most significant first. -/
def readNat : Nat → List Char → Nat → Option (Nat × List Char)
  | 0, cs, acc => some (acc, cs)
  | _ + 1, [], _ => none
  | w + 1, c :: cs, acc =>
    if c.isDigit then readNat w cs (acc * 10 + (c.toNat - 48)) else none

/-- Consume one expected character. -/
def expectChar (c : Char) : List Char → Option (List Char)
  | [] => none
  | x :: xs => if x = c then some xs else none

/-- Optional fractional seconds: `.` followed by at least one digit.
Returns nanoseconds (digits beyond the ninth are truncated, as in Go). -/
def readFrac : List Char → Option (Nat × List Char)
  | '.' :: rest =>
    let ds := rest.takeWhile Char.isDigit
    if ds.isEmpty then none
    else
      let ds9 := ds.take 9
      let v := ds9.foldl (fun a c => a * 10 + (c.toNat - 48)) 0
      some (v * 10 ^ (9 - ds9.length), rest.dropWhile Char.isDigit)
  | cs => some (0, cs)

/-- Numeric time-zone offset `HH:MM` after a sign, in seconds. -/
def readOffsetNum (sign : Int) (cs : List Char) : Option (Int × List Char) := do
  let (oh, cs) ← readNat 2 cs 0
  let cs ← expectChar ':' cs
  let (om, cs) ← readNat 2 cs 0
  if oh ≤ 23 ∧ om ≤ 59 then
    pure (sign * ((oh : Int) * 3600 + (om : Int) * 60), cs)
  else none

/-- Time-zone part: `Z` or `±HH:MM`. -/
def readOffset : List Char → Option (Int × List Char)
  | 'Z' :: rest => some (0, rest)
  | '+' :: rest => readOffsetNum 1 rest
  | '-' :: rest => readOffsetNum (-1) rest
  | _ => none

def isLeapYear (y : Nat) : Bool :=
  (y % 4 == 0 && y % 100 != 0) || y % 400 == 0

def daysInMonth (y m : Nat) : Nat :=
  match m with
  | 1 => 31
  | 2 => if isLeapYear y then 29 else 28
  | 3 => 31
  | 4 => 30
  | 5 => 31
  | 6 => 30
  | 7 => 31
  | 8 => 31
  | 9 => 30
  | 10 => 31
  | 11 => 30
  | 12 => 31
  | _ => 0

/-- Days from 1970-01-01 to `y-m-d` in the proleptic Gregorian calendar. -/
def daysFromCivil (y m d : Nat) : Int :=
  let yi : Int := if m ≤ 2 then (y : Int) - 1 else (y : Int)
  let era : Int := if 0 ≤ yi then ((yi.toNat / 400 : Nat) : Int)
                   else -(((((399 : Int) - yi).toNat / 400 : Nat) : Int))
  let yoe : Nat := (yi - era * 400).toNat
  let mp : Nat := if 2 < m then m - 3 else m + 9
  let doy : Nat := (153 * mp + 2) / 5 + d - 1
  let doe : Nat := yoe * 365 + yoe / 4 - yoe / 100 + doy
  era * 146097 + (doe : Int) - 719468

/-- Parse an RFC3339 timestamp `YYYY-MM-DDTHH:MM:SS[.fff](Z|±HH:MM)` into
nanoseconds since `0001-01-01T00:00:00Z`. -/
def parseRFC3339 (cs : List Char) : Option Int := do
  let (y, cs) ← readNat 4 cs 0
  let cs ← expectChar '-' cs
  let (mo, cs) ← readNat 2 cs 0
  let cs ← expectChar '-' cs
  let (d, cs) ← readNat 2 cs 0
  let cs ← expectChar 'T' cs
  let (h, cs) ← readNat 2 cs 0
  let cs ← expectChar ':' cs
  let (mi, cs) ← readNat 2 cs 0
  let cs ← expectChar ':' cs
  let (s, cs) ← readNat 2 cs 0
  let (ns, cs) ← readFrac cs
  let (offset, cs) ← readOffset cs
  if cs.isEmpty ∧ 1 ≤ mo ∧ mo ≤ 12 ∧ 1 ≤ d ∧ d ≤ daysInMonth y mo ∧
      h ≤ 23 ∧ mi ≤ 59 ∧ s ≤ 59 then
    pure (((daysFromCivil y mo d + 719162) * 86400
            + ((h * 3600 + mi * 60 + s : Nat) : Int) - offset) * 1000000000
          + (ns : Int))
  else none

/-- Embeds `parseTime` (`client.go`): the empty string never parses, any
other string is tried against the RFC3339 layouts.  `none` is Go's
`(time.Time{}, false)`. -/
def parseTime (raw : String) : Option Int :=
  if raw = "" then none
  else parseRFC3339 raw.toList

example : parseTime "" = none := by decide
example : parseTime "bogus" = none := by decide
example : parseTime "0001-01-01T00:00:00Z" = some 0 := by decide
example : parseTime "1970-01-01T00:00:00Z" = some 62135596800000000000 := by decide
example : parseTime "2024-01-01T00:00:00Z" = some 63839664000000000000 := by decide
example : parseTime "2024-01-01T01:00:00+01:00" = some 63839664000000000000 := by decide
example : parseTime "2024-01-01T00:00:00.5Z" = some 63839664000500000000 := by decide
example : parseTime "2024-13-01T00:00:00Z" = none := by decide
example : parseTime "2023-02-29T00:00:00Z" = none := by decide
example : parseTime "2024-02-29T00:00:00Z" ≠ none := by decide

/-! ## Data model (`client.go`: `component`, `incident`, `incidentUpdate`;
`report.go`: `report`; `config.go`: `config` and its constants) -/

structure Component where
  name : String
  status : String
  group : Bool
deriving Repr, DecidableEq

structure IncidentUpdate where
  status : String
  body : String
  createdAt : String
deriving Repr, DecidableEq

structure Incident where
  id : String
  name : String
  status : String
  impact : String
  shortlink : String
  createdAt : String
  updatedAt : String
  incidentUpdates : List IncidentUpdate
deriving Repr, DecidableEq

structure Report where
  components : List Component
  active : List Incident
  resolved : List Incident
deriving Repr, DecidableEq

/-- `config.go`: the sentinel placeholder entry of the upstream feed. -/
def referenceComponent : String := "Visit www.githubstatus.com for more information"

def outputText : String := "text"

def outputJSON : String := "json"

/-- `config.go`: `resolvedLookback = 7 * 24 * time.Hour`, in nanoseconds. -/
def resolvedLookback : Int := 7 * 24 * 60 * 60 * 1000000000

structure Config where
  showDetails : Bool
  showResolved : Bool
  showVersion : Bool
  output : String
deriving Repr, DecidableEq

/-! ## `incidentTime` and the incident ordering (`client.go`, `report.go`) -/

/-- The `for _, upd := range inc.IncidentUpdates` loop of `incidentTime`:
the first update (in feed order) whose `created_at` parses. -/
def firstParseableUpdate : List IncidentUpdate → Option Int
  | [] => none
  | u :: us =>
    match parseTime u.createdAt with
    | some t => some t
    | none => firstParseableUpdate us

/-- Embeds `incidentTime` (`client.go`, the `statusClient` variant used by
`buildReport`): `updatedAt` if parseable; otherwise, with no updates,
`createdAt` if parseable; otherwise the first parseable update timestamp in
feed order; otherwise the zero time. -/
def incidentTime (inc : Incident) : Int :=
  match parseTime inc.updatedAt with
  | some t => t
  | none =>
    if inc.incidentUpdates.isEmpty then
      match parseTime inc.createdAt with
      | some t => t
      | none => 0
    else
      match firstParseableUpdate inc.incidentUpdates with
      | some t => t
      | none => 0

/-- Embeds `impactOrder` (`report.go`). -/
def impactOrder (impact : String) : Nat :=
  let s := (trimChars impact.toList).map Char.toLower
  if s == "critical".toList then 0
  else if s == "major".toList then 1
  else if s == "minor".toList then 2
  else if s == "none".toList then 3
  else 4

/-- Embeds the `less` closure passed to `sort.Slice` in `sortIncidents`
(`report.go`): most recent known timestamp first; on equal timestamps the
lower impact rank first; on equal impact the case-insensitively smaller
name first. -/
def incidentLess (a b : Incident) : Bool :=
  if incidentTime a ≠ incidentTime b then
    decide (incidentTime b < incidentTime a)
  else if ((impactOrder a.impact : Int) - (impactOrder b.impact : Int)) ≠ 0 then
    decide (((impactOrder a.impact : Int) - (impactOrder b.impact : Int)) < 0)
  else
    charListLt (lowerChars a.name) (lowerChars b.name)

/-- The non-strict companion of `incidentLess`: `a` may legally precede `b`
in the output of `sort.Slice` with that comparator. -/
def incidentLE (a b : Incident) : Prop := incidentLess b a = false

instance : DecidableRel incidentLE := fun _ _ => instDecidableEqBool _ _

/-- Embeds `sortIncidents` (`report.go`): the input is copied and the copy
is sorted with the `incidentLess` comparator (see the module comment on the
embedding of `sort.Slice`). -/
def sortIncidents (incidents : List Incident) : List Incident :=
  incidents.insertionSort incidentLE

/-! ## Component filtering (`report.go`) -/

/-- The body of the `for` loop of `filterComponents`: a component is kept
unless it is a group container or the sentinel reference entry. -/
def keepComponent (c : Component) : Bool :=
  !c.group && !(eqFold c.name referenceComponent)

/-- Sorting relation of `filterComponents`: case-insensitive name order
(non-strict companion of its `sort.Slice` comparator). -/
def componentLE (a b : Component) : Prop :=
  charListLt (lowerChars b.name) (lowerChars a.name) = false

instance : DecidableRel componentLE := fun _ _ => instDecidableEqBool _ _

instance : IsTotal Component componentLE :=
  ⟨fun a b => by
    unfold componentLE
    cases h : charListLt (lowerChars b.name) (lowerChars a.name) with
    | false => exact .inl rfl
    | true => exact .inr (charListLt_asymm _ _ h)⟩

instance : IsTrans Component componentLE :=
  ⟨fun _ _ _ hab hbc => charListLt_le_trans _ _ _ hab hbc⟩

/-- Embeds `filterComponents` (`report.go`): drop group containers and the
sentinel reference entry, then sort by case-insensitive name ascending. -/
def filterComponents (components : List Component) : List Component :=
  (components.filter keepComponent).insertionSort componentLE

/-! ## Resolved-incident filtering (`client.go`, `RecentResolvedIncidents`) -/

/-- The `for _, inc := range payload.Incidents` loop of
`RecentResolvedIncidents`, carrying the `seen` id set.  An incident is
skipped unless its status folds to `resolved`; a non-empty id already in
`seen` is skipped and a fresh one recorded (before the cutoff test, as in
the source); an incident with a non-zero known timestamp strictly before
the cutoff is skipped. -/
def recentResolvedLoop (cutoff : Int) : List Incident → List String → List Incident
  | [], _ => []
  | inc :: rest, seen =>
    if eqFold inc.status "resolved" = false then
      recentResolvedLoop cutoff rest seen
    else if inc.id ≠ "" ∧ inc.id ∈ seen then
      recentResolvedLoop cutoff rest seen
    else
      let seen' := if inc.id ≠ "" then inc.id :: seen else seen
      if incidentTime inc ≠ 0 ∧ incidentTime inc < cutoff then
        recentResolvedLoop cutoff rest seen'
      else
        inc :: recentResolvedLoop cutoff rest seen'

/-- Embeds the filtering part of `RecentResolvedIncidents` (`client.go`);
`cutoff` stands for `time.Now().Add(-lookback)` at the moment of the call,
and `feed` for the decoded body of the full-incident endpoint. -/
def recentResolvedIncidents (cutoff : Int) (feed : List Incident) : List Incident :=
  recentResolvedLoop cutoff feed []

/-! ## Report building (`report.go`, `buildReport`) -/

/-- The fetch results a `statusClient` delivers to `buildReport`: each
endpoint either fails with an error or yields its decoded list.  The
resolved feed is the raw full-incident list; its filtering
(`RecentResolvedIncidents`) is part of the embedding of the call. -/
structure ClientData where
  components : Except String (List Component)
  activeIncidents : Except String (List Incident)
  allIncidents : Except String (List Incident)

/-- Embeds `buildReport` (`report.go`): fetch and filter components (empty
result is fatal), then fetch/sort the active incidents when
`showDetails || output == json`, then fetch/filter/sort the resolved
incidents when `showResolved || output == json`. -/
def buildReport (data : ClientData) (cfg : Config) (cutoff : Int) :
    Except String Report :=
  match data.components with
  | .error e => .error e
  | .ok comps =>
    let rcomps := filterComponents comps
    if rcomps.length = 0 then
      .error "github status returned no components"
    else
      let includeActive := cfg.showDetails || (cfg.output == outputJSON)
      let includeResolved := cfg.showResolved || (cfg.output == outputJSON)
      let activeRes : Except String (List Incident) :=
        if includeActive then
          match data.activeIncidents with
          | .error e => .error e
          | .ok active => .ok (sortIncidents active)
        else .ok []
      match activeRes with
      | .error e => .error e
      | .ok activeList =>
        let resolvedRes : Except String (List Incident) :=
          if includeResolved then
            match data.allIncidents with
            | .error e => .error e
            | .ok feed => .ok (sortIncidents (recentResolvedIncidents cutoff feed))
          else .ok []
        match resolvedRes with
        | .error e => .error e
        | .ok resolvedList => .ok ⟨rcomps, activeList, resolvedList⟩

/-! ## Update display (`render.go`, `summarizeUpdates`) -/

def maxIncidentUpdates : Nat := 3

/-- Embeds `summarizeUpdates` (`render.go`): the updates are returned in
feed order, truncated to the first `maxIncidentUpdates`. -/
def summarizeUpdates (updates : List IncidentUpdate) : List IncidentUpdate :=
  if updates.length ≤ maxIncidentUpdates then updates
  else updates.take maxIncidentUpdates

/-! ## Bounded-retry fetching (`client.go`, the earlier variant:
`fetchJSON`, `waitForRetry`, `shouldRetryStatus`) -/

/-- Embeds `shouldRetryStatus` (`client.go`). -/
def shouldRetryStatus (status : Nat) : Bool :=
  if status == 429 then true
  else decide (500 ≤ status ∧ status ≤ 599)

/-- Embeds the backoff computation of `waitForRetry` (`client.go`), in
milliseconds: `300ms << (attempt-1)`, capped at `2s`. -/
def retryBackoff (attempt : Nat) : Nat :=
  let backoff := 300 * 2 ^ (attempt - 1)
  if backoff > 2000 then 2000 else backoff

/-- What one attempt of `fetchJSON` observes: `client.Do` fails, or an HTTP
response arrives with a status code and (for a 200) a decode outcome. -/
inductive AttemptOutcome where
  | connFailure (msg : String)
  | response (status : Nat) (decodeOk : Bool)
deriving Repr, DecidableEq

/-- The error `fetchJSON` reports for one attempt. -/
inductive FetchError where
  | connError (msg : String)
  | statusError (status : Nat)
  | decodeError
deriving Repr, DecidableEq

/-- The `lastErr` left by one iteration of the `fetchJSON` loop body.  The
non-200 branch of the source sets `lastErr` and then conditionally does an
early `return`, but that `return` exits only the enclosing closure — there
is nothing after it inside the closure — so every non-200 status leaves the
same state behind, whatever `shouldRetryStatus` says. -/
def attemptError : AttemptOutcome → Option FetchError
  | .connFailure msg => some (.connError msg)
  | .response status decodeOk =>
    if status ≠ 200 then some (.statusError status)
    else if decodeOk then none
    else some .decodeError

/-- The `for attempt := 1; attempt <= attempts; attempt++` loop of
`fetchJSON`: `env n` is what attempt number `n` observes, `remaining` the
attempts still allowed.  Returns the final `lastErr` (`none` on success),
the number of attempts performed, and the backoff sleeps taken. -/
def fetchLoop (env : Nat → AttemptOutcome) (attempt : Nat) :
    Nat → Option FetchError × Nat × List Nat
  | 0 => (none, 0, [])
  | remaining + 1 =>
    match attemptError (env attempt) with
    | none => (none, 1, [])
    | some err =>
      if remaining = 0 then (some err, 1, [])
      else
        let (r, n, sleeps) := fetchLoop env (attempt + 1) remaining
        (r, n + 1, retryBackoff attempt :: sleeps)

/-- Embeds `fetchJSON` (`client.go`): at most `max retries 1` attempts,
sleeping `retryBackoff` between consecutive attempts.  The deadline-expiry
path of `waitForRetry` (which aborts the sleep) is not modelled; every
sleep is assumed to complete. -/
def fetchJSON (env : Nat → AttemptOutcome) (retries : Nat) :
    Option FetchError × Nat × List Nat :=
  let attempts := if retries < 1 then 1 else retries
  fetchLoop env 1 attempts

/-! ## The ranking chain of the specification (§4.2) -/

/-- Modelled from the spec: the three-key incident ranking chain of §4.2,
written as a non-strict "may precede" relation: `a` may come before `b`
when `a`'s known timestamp is more recent; or the timestamps are equal and
`a`'s impact rank is lower; or both are equal and `a`'s lowercased name is
not greater.  Stated for comparison with the source comparator
`incidentLess`. -/
def specChainLE (a b : Incident) : Prop :=
  incidentTime b < incidentTime a ∨
    (incidentTime a = incidentTime b ∧
      (impactOrder a.impact < impactOrder b.impact ∨
        (impactOrder a.impact = impactOrder b.impact ∧
          charListLt (lowerChars b.name) (lowerChars a.name) = false)))

instance : DecidableRel specChainLE := fun _ _ => by
  unfold specChainLE; infer_instance

/-- The source comparator agrees with the spec's ranking chain. -/
theorem incidentLE_iff_specChainLE (a b : Incident) :
    incidentLE a b ↔ specChainLE a b := by
  unfold incidentLE incidentLess specChainLE
  by_cases ht : incidentTime b = incidentTime a
  · rw [if_neg (not_ne_iff.mpr ht)]
    by_cases hi : impactOrder b.impact = impactOrder a.impact
    · rw [if_neg (not_ne_iff.mpr (by omega))]
      constructor
      · intro h
        exact .inr ⟨ht.symm, .inr ⟨hi.symm, h⟩⟩
      · rintro (h | ⟨-, h | ⟨-, h⟩⟩)
        · exact absurd h (by omega)
        · exact absurd h (by omega)
        · exact h
    · rw [if_pos (by omega)]
      constructor
      · intro h
        simp only [decide_eq_false_iff_not, not_lt] at h
        exact .inr ⟨ht.symm, .inl (by omega)⟩
      · rintro (h | ⟨-, h | ⟨h, -⟩⟩)
        · exact absurd h (by omega)
        · simp only [decide_eq_false_iff_not, not_lt]
          omega
        · exact absurd h (by omega)
  · rw [if_pos ht]
    constructor
    · intro h
      simp only [decide_eq_false_iff_not, not_lt] at h
      exact .inl (by omega)
    · rintro (h | ⟨h, -⟩)
      · simp only [decide_eq_false_iff_not, not_lt]
        omega
      · exact absurd h (by omega)

theorem specChainLE_total (a b : Incident) : specChainLE a b ∨ specChainLE b a := by
  unfold specChainLE
  rcases lt_trichotomy (incidentTime a) (incidentTime b) with h | h | h
  · exact .inr (.inl h)
  · rcases Nat.lt_trichotomy (impactOrder a.impact) (impactOrder b.impact) with hi | hi | hi
    · exact .inl (.inr ⟨h, .inl hi⟩)
    · cases hn : charListLt (lowerChars b.name) (lowerChars a.name) with
      | false => exact .inl (.inr ⟨h, .inr ⟨hi, rfl⟩⟩)
      | true => exact .inr (.inr ⟨h.symm, .inr ⟨hi.symm, charListLt_asymm _ _ hn⟩⟩)
    · exact .inr (.inr ⟨h.symm, .inl hi⟩)
  · exact .inl (.inl h)

theorem specChainLE_trans (a b c : Incident) (hab : specChainLE a b)
    (hbc : specChainLE b c) : specChainLE a c := by
  unfold specChainLE at *
  rcases hab with h1 | ⟨h1, hi1⟩
  · rcases hbc with h2 | ⟨h2, -⟩
    · exact .inl (by omega)
    · exact .inl (by omega)
  · rcases hbc with h2 | ⟨h2, hi2⟩
    · exact .inl (by omega)
    · refine .inr ⟨by omega, ?_⟩
      rcases hi1 with hlt1 | ⟨heq1, hn1⟩
      · rcases hi2 with hlt2 | ⟨heq2, -⟩
        · exact .inl (by omega)
        · exact .inl (by omega)
      · rcases hi2 with hlt2 | ⟨heq2, hn2⟩
        · exact .inl (by omega)
        · exact .inr ⟨by omega, charListLt_le_trans _ _ _ hn1 hn2⟩

instance : IsTotal Incident incidentLE :=
  ⟨fun a b => by
    rw [incidentLE_iff_specChainLE, incidentLE_iff_specChainLE]
    exact specChainLE_total a b⟩

instance : IsTrans Incident incidentLE :=
  ⟨fun a b c hab hbc => by
    rw [incidentLE_iff_specChainLE] at *
    exact specChainLE_trans a b c hab hbc⟩

/-! ## Helper lemmas -/

theorem firstParseableUpdate_eq_findSome (us : List IncidentUpdate) :
    firstParseableUpdate us = us.findSome? fun u => parseTime u.createdAt := by
  induction us with
  | nil => rfl
  | cons u us ih =>
    rw [firstParseableUpdate, List.findSome?_cons]
    cases parseTime u.createdAt with
    | none => exact ih
    | some t => rfl

/-- Everything the resolved-filter loop emits comes from its input, has a
status folding to `resolved`, and has a known timestamp that is either the
zero time or not strictly before the cutoff. -/
theorem recentResolvedLoop_mem (cutoff : Int) (l : List Incident)
    (seen : List String) (x : Incident)
    (hx : x ∈ recentResolvedLoop cutoff l seen) :
    x ∈ l ∧ eqFold x.status "resolved" = true ∧
      (incidentTime x = 0 ∨ ¬ incidentTime x < cutoff) := by
  induction l generalizing seen with
  | nil => simp [recentResolvedLoop] at hx
  | cons inc rest ih =>
    simp only [recentResolvedLoop] at hx
    by_cases h1 : eqFold inc.status "resolved" = false
    · rw [if_pos h1] at hx
      obtain ⟨hmem, h2, h3⟩ := ih seen hx
      exact ⟨List.mem_cons_of_mem _ hmem, h2, h3⟩
    · rw [if_neg h1] at hx
      by_cases h2 : inc.id ≠ "" ∧ inc.id ∈ seen
      · rw [if_pos h2] at hx
        obtain ⟨hmem, h3, h4⟩ := ih seen hx
        exact ⟨List.mem_cons_of_mem _ hmem, h3, h4⟩
      · rw [if_neg h2] at hx
        by_cases h3 : incidentTime inc ≠ 0 ∧ incidentTime inc < cutoff
        · rw [if_pos h3] at hx
          obtain ⟨hmem, h4, h5⟩ := ih _ hx
          exact ⟨List.mem_cons_of_mem _ hmem, h4, h5⟩
        · rw [if_neg h3] at hx
          rcases List.mem_cons.mp hx with rfl | hmem
          · refine ⟨List.mem_cons_self _ _, ?_, ?_⟩
            · cases he : eqFold x.status "resolved" with
              | true => rfl
              | false => exact absurd he h1
            · by_cases hz : incidentTime x = 0
              · exact .inl hz
              · exact .inr fun hlt => h3 ⟨hz, hlt⟩
          · obtain ⟨hmem', h4, h5⟩ := ih _ hmem
            exact ⟨List.mem_cons_of_mem _ hmem', h4, h5⟩

/-- An emitted incident with a non-empty id was not in `seen` on entry. -/
theorem recentResolvedLoop_id_notin_seen (cutoff : Int) (l : List Incident)
    (seen : List String) (x : Incident)
    (hx : x ∈ recentResolvedLoop cutoff l seen) (hid : x.id ≠ "") :
    x.id ∉ seen := by
  induction l generalizing seen with
  | nil => simp [recentResolvedLoop] at hx
  | cons inc rest ih =>
    simp only [recentResolvedLoop] at hx
    by_cases h1 : eqFold inc.status "resolved" = false
    · rw [if_pos h1] at hx
      exact ih seen hx
    · rw [if_neg h1] at hx
      by_cases h2 : inc.id ≠ "" ∧ inc.id ∈ seen
      · rw [if_pos h2] at hx
        exact ih seen hx
      · rw [if_neg h2] at hx
        by_cases h3 : incidentTime inc ≠ 0 ∧ incidentTime inc < cutoff
        · rw [if_pos h3] at hx
          have h4 := ih _ hx
          by_cases hinc : inc.id ≠ ""
          · rw [if_pos hinc] at h4
            exact fun hmem => h4 (List.mem_cons_of_mem _ hmem)
          · rw [if_neg hinc] at h4
            exact h4
        · rw [if_neg h3] at hx
          rcases List.mem_cons.mp hx with rfl | hmem
          · exact fun hseen => h2 ⟨hid, hseen⟩
          · have h4 := ih _ hmem
            by_cases hinc : inc.id ≠ ""
            · rw [if_pos hinc] at h4
              exact fun hm => h4 (List.mem_cons_of_mem _ hm)
            · rw [if_neg hinc] at h4
              exact h4

/-- The resolved-filter loop never emits two incidents sharing a non-empty
id. -/
theorem recentResolvedLoop_pairwise (cutoff : Int) (l : List Incident)
    (seen : List String) :
    (recentResolvedLoop cutoff l seen).Pairwise
      (fun a b => a.id = "" ∨ a.id ≠ b.id) := by
  induction l generalizing seen with
  | nil => simp [recentResolvedLoop]
  | cons inc rest ih =>
    simp only [recentResolvedLoop]
    by_cases h1 : eqFold inc.status "resolved" = false
    · rw [if_pos h1]; exact ih seen
    · rw [if_neg h1]
      by_cases h2 : inc.id ≠ "" ∧ inc.id ∈ seen
      · rw [if_pos h2]; exact ih seen
      · rw [if_neg h2]
        by_cases h3 : incidentTime inc ≠ 0 ∧ incidentTime inc < cutoff
        · rw [if_pos h3]; exact ih _
        · rw [if_neg h3]
          refine List.Pairwise.cons ?_ (ih _)
          intro y hy
          by_cases hinc : inc.id ≠ ""
          · rw [if_pos hinc] at hy
            by_cases hyid : y.id = ""
            · exact .inr fun hcontra => hinc (hcontra.trans hyid |>.symm ▸ rfl)
            · have := recentResolvedLoop_id_notin_seen cutoff rest _ y hy hyid
              exact .inr fun hcontra => this (hcontra ▸ List.mem_cons_self _ _)
          · exact .inl (not_ne_iff.mp hinc)

/-- On a list that already passes all three tests relative to `seen`, the
loop is the identity. -/
theorem recentResolvedLoop_fixed (cutoff : Int) (l : List Incident)
    (seen : List String)
    (h1 : ∀ x ∈ l, eqFold x.status "resolved" = true ∧
      (incidentTime x = 0 ∨ ¬ incidentTime x < cutoff) ∧
      (x.id ≠ "" → x.id ∉ seen))
    (h2 : l.Pairwise (fun a b => a.id = "" ∨ a.id ≠ b.id)) :
    recentResolvedLoop cutoff l seen = l := by
  induction l generalizing seen with
  | nil => rfl
  | cons inc rest ih =>
    obtain ⟨hres, hcut, hseen⟩ := h1 inc (List.mem_cons_self _ _)
    simp only [recentResolvedLoop]
    rw [if_neg (by simp [hres]), if_neg (by
      rintro ⟨hne, hmem⟩
      exact hseen hne hmem)]
    rw [if_neg (by
      rintro ⟨hnz, hlt⟩
      rcases hcut with hz | hge
      · exact hnz hz
      · exact hge hlt)]
    congr 1
    apply ih
    · intro x hx
      obtain ⟨hx1, hx2, hx3⟩ := h1 x (List.mem_cons_of_mem _ hx)
      refine ⟨hx1, hx2, fun hne => ?_⟩
      by_cases hinc : inc.id ≠ ""
      · rw [if_pos hinc]
        intro hmem
        rcases List.mem_cons.mp hmem with heq | hmem'
        · rcases List.rel_of_pairwise_cons h2 hx with hemp | hneq
          · exact hinc hemp
          · exact hneq heq.symm
        · exact hx3 hne hmem'
      · rw [if_neg hinc]
        exact hx3 hne
    · exact h2.of_cons

/-- The pairwise distinct-id property survives sorting. -/
theorem sortIncidents_pairwise_ids (l : List Incident)
    (h : l.Pairwise (fun a b => a.id = "" ∨ a.id ≠ b.id)) :
    (sortIncidents l).Pairwise (fun a b => a.id = "" ∨ a.id ≠ b.id) := by
  have hsymm : ∀ {x y : Incident},
      (x.id = "" ∨ x.id ≠ y.id) → (y.id = "" ∨ y.id ≠ x.id) := by
    intro x y hxy
    rcases hxy with hx | hne
    · by_cases hy : y.id = x.id
      · exact .inl (hy.trans hx)
      · exact .inr hy
    · exact .inr (Ne.symm hne)
  exact ((List.perm_insertionSort incidentLE l).pairwise_iff hsymm).mpr h

/-- Full inversion of a successful `buildReport`: where each part of the
report comes from, and which fetches were (not) consulted. -/
theorem buildReport_ok_inv (data : ClientData) (cfg : Config) (cutoff : Int)
    (rep : Report) (h : buildReport data cfg cutoff = .ok rep) :
    (∃ comps, data.components = .ok comps ∧
      rep.components = filterComponents comps ∧
      (filterComponents comps).length ≠ 0) ∧
    ((cfg.showDetails || (cfg.output == outputJSON)) = true →
      ∃ active, data.activeIncidents = .ok active ∧
        rep.active = sortIncidents active) ∧
    ((cfg.showDetails || (cfg.output == outputJSON)) = false →
      rep.active = []) ∧
    ((cfg.showResolved || (cfg.output == outputJSON)) = true →
      ∃ feed, data.allIncidents = .ok feed ∧
        rep.resolved = sortIncidents (recentResolvedIncidents cutoff feed)) ∧
    ((cfg.showResolved || (cfg.output == outputJSON)) = false →
      rep.resolved = []) := by
  cases hc : data.components with
  | error e => simp [buildReport, hc] at h
  | ok comps =>
    simp only [buildReport, hc] at h
    by_cases hlen : (filterComponents comps).length = 0
    · rw [if_pos hlen] at h
      cases h
    · rw [if_neg hlen] at h
      cases hact : cfg.showDetails || (cfg.output == outputJSON) with
      | true =>
        rw [hact, if_pos rfl] at h
        cases ha : data.activeIncidents with
        | error e => rw [ha] at h; cases h
        | ok active =>
          rw [ha] at h
          cases hres : cfg.showResolved || (cfg.output == outputJSON) with
          | true =>
            rw [hres, if_pos rfl] at h
            cases hr : data.allIncidents with
            | error e => rw [hr] at h; cases h
            | ok feed =>
              rw [hr] at h
              cases h
              exact ⟨⟨comps, rfl, rfl, hlen⟩,
                fun _ => ⟨active, rfl, rfl⟩, fun hf => Bool.noConfusion hf,
                fun _ => ⟨feed, rfl, rfl⟩, fun hf => Bool.noConfusion hf⟩
          | false =>
            rw [hres, if_neg (by simp)] at h
            cases h
            exact ⟨⟨comps, rfl, rfl, hlen⟩,
              fun _ => ⟨active, rfl, rfl⟩, fun hf => Bool.noConfusion hf,
              fun ht => Bool.noConfusion ht, fun _ => rfl⟩
      | false =>
        rw [hact, if_neg (by simp)] at h
        cases hres : cfg.showResolved || (cfg.output == outputJSON) with
        | true =>
          rw [hres, if_pos rfl] at h
          cases hr : data.allIncidents with
          | error e => rw [hr] at h; cases h
          | ok feed =>
            rw [hr] at h
            cases h
            exact ⟨⟨comps, rfl, rfl, hlen⟩,
              fun ht => Bool.noConfusion ht, fun _ => rfl,
              fun _ => ⟨feed, rfl, rfl⟩, fun hf => Bool.noConfusion hf⟩
        | false =>
          rw [hres, if_neg (by simp)] at h
          cases h
          exact ⟨⟨comps, rfl, rfl, hlen⟩,
            fun ht => Bool.noConfusion ht, fun _ => rfl,
            fun ht => Bool.noConfusion ht, fun _ => rfl⟩

/-! ## Concrete fixtures used by witnesses and counterexamples -/

def emptyIncident : Incident :=
  { id := "", name := "", status := "", impact := "", shortlink := "",
    createdAt := "", updatedAt := "", incidentUpdates := [] }

def apiComponent : Component :=
  { name := "API", status := "operational", group := false }

/-! ## The claims -/

/-- C1: sorting an incident list orders it by the three-key tie-break
chain — most recent known timestamp first, then impact severity rank
ascending, then case-insensitive name ascending — and that comparison is a
total (linear pre-)order on incidents: any two incidents are comparable and
the relation is transitive. -/
theorem sortIncidents_three_key_chain :
    (∀ l : List Incident, (sortIncidents l).Sorted specChainLE) ∧
    (∀ a b : Incident, specChainLE a b ∨ specChainLE b a) ∧
    (∀ a b c : Incident, specChainLE a b → specChainLE b c → specChainLE a c) := by
  refine ⟨fun l => ?_, specChainLE_total, specChainLE_trans⟩
  exact (List.sorted_insertionSort incidentLE l).imp
    fun hab => (incidentLE_iff_specChainLE _ _).mp hab

/-- Witness for C1: the transitivity part applied at three concrete
incidents that differ only in name. -/
theorem sortIncidents_three_key_chain_witness :
    specChainLE { emptyIncident with name := "alpha" }
      { emptyIncident with name := "gamma" } :=
  sortIncidents_three_key_chain.2.2 _ { emptyIncident with name := "beta" } _
    (by decide) (by decide)

/-- C2 counterexample.  The claim: when `updatedAt` is unparseable the
known timestamp is the newest parseable update timestamp, and when updates
exist but none parses, `createdAt` is used.  Both parts fail on
`incidentTime` (`client.go`): (1) an incident with one unparseable update
and a parseable `createdAt` gets the zero time, not its `createdAt`;
(2) with two parseable updates oldest-first in feed order, the *first* in
feed order is chosen, which is the *oldest*, not the newest. -/
theorem incidentTime_claim_counterexample :
    (incidentTime { emptyIncident with
        createdAt := "2024-01-01T00:00:00Z",
        incidentUpdates := [{ status := "", body := "", createdAt := "not-a-time" }] } = 0 ∧
      parseTime "2024-01-01T00:00:00Z" = some 63839664000000000000) ∧
    (incidentTime { emptyIncident with
        incidentUpdates :=
          [{ status := "", body := "", createdAt := "2024-01-01T00:00:00Z" },
           { status := "", body := "", createdAt := "2024-01-02T00:00:00Z" }] } =
        63839664000000000000 ∧
      parseTime "2024-01-02T00:00:00Z" = some 63839750400000000000 ∧
      (63839664000000000000 : Int) < 63839750400000000000) := by
  exact ⟨⟨rfl, rfl⟩, rfl, rfl, by decide⟩

/-- C2 as amended: the known timestamp is the parsed `updatedAt` when it
parses; otherwise, when the incident has no updates at all, the parsed
`createdAt` (zero time if unparseable); otherwise the first parseable
update timestamp in feed order (zero time if none parses — `createdAt` is
not consulted when updates exist). -/
theorem incidentTime_spec (inc : Incident) :
    incidentTime inc =
      match parseTime inc.updatedAt with
      | some t => t
      | none =>
        if inc.incidentUpdates.isEmpty then (parseTime inc.createdAt).getD 0
        else ((inc.incidentUpdates.findSome? fun u => parseTime u.createdAt).getD 0) := by
  unfold incidentTime
  cases parseTime inc.updatedAt with
  | some t => rfl
  | none =>
    by_cases he : inc.incidentUpdates.isEmpty
    · rw [if_pos he, if_pos he]
      cases parseTime inc.createdAt <;> rfl
    · rw [if_neg he, if_neg he, ← firstParseableUpdate_eq_findSome]
      cases firstParseableUpdate inc.incidentUpdates <;> rfl

/-- C3 counterexample.  The claim: the resolved list only contains
incidents whose best-known timestamp is not strictly older than the
cutoff, and an incident whose timestamps are all empty is treated as
oldest and hence excluded.  On the code
(`RecentResolvedIncidents`, `client.go`), a resolved incident whose
timestamps are all empty has the zero known timestamp — strictly older
than any positive cutoff — yet it is *included*: the filter only drops
incidents with a *non-zero* timestamp before the cutoff. -/
theorem recentResolved_keeps_zero_time :
    recentResolvedIncidents 1000 [{ emptyIncident with id := "e1", status := "resolved" }] =
      [{ emptyIncident with id := "e1", status := "resolved" }] ∧
    incidentTime { emptyIncident with id := "e1", status := "resolved" } = 0 ∧
    (0 : Int) < 1000 :=
  ⟨rfl, rfl, by decide⟩

/-- C3 as amended: the resolved list contains only incidents of the input
feed whose status folds to `resolved` and whose best-known timestamp is
either the zero time (all timestamps unknown) or not strictly older than
the cutoff; in particular the filter is total — an all-empty incident is
handled (and kept), never a crash. -/
theorem recentResolved_members (cutoff : Int) (feed : List Incident)
    (x : Incident) (hx : x ∈ recentResolvedIncidents cutoff feed) :
    x ∈ feed ∧ eqFold x.status "resolved" = true ∧
      (incidentTime x = 0 ∨ ¬ incidentTime x < cutoff) :=
  recentResolvedLoop_mem cutoff feed [] x hx

/-- Witness for C3 (amended): the membership hypothesis discharged on a
concrete one-element feed. -/
theorem recentResolved_members_witness :
    { emptyIncident with id := "e1", status := "resolved" } ∈
        [{ emptyIncident with id := "e1", status := "resolved" }] ∧
      eqFold (Incident.status { emptyIncident with id := "e1", status := "resolved" })
        "resolved" = true ∧
      (incidentTime { emptyIncident with id := "e1", status := "resolved" } = 0 ∨
        ¬ incidentTime { emptyIncident with id := "e1", status := "resolved" } < 1000) :=
  recentResolved_members 1000 _ _ (by decide)

/-- C4 counterexample.  The claim: the displayed updates are sorted by
parseable timestamp descending (most recent first) regardless of feed
order.  On the code (`summarizeUpdates`, `render.go`) no sorting happens:
with two parseable updates oldest-first in feed order, the displayed list
keeps feed order, oldest first — the claim requires the newest first. -/
theorem summarizeUpdates_claim_counterexample :
    summarizeUpdates
        [{ status := "", body := "", createdAt := "2024-01-01T00:00:00Z" },
         { status := "", body := "", createdAt := "2024-01-02T00:00:00Z" }] =
      [{ status := "", body := "", createdAt := "2024-01-01T00:00:00Z" },
       { status := "", body := "", createdAt := "2024-01-02T00:00:00Z" }] ∧
    parseTime "2024-01-01T00:00:00Z" = some 63839664000000000000 ∧
    parseTime "2024-01-02T00:00:00Z" = some 63839750400000000000 ∧
    (63839664000000000000 : Int) < 63839750400000000000 :=
  ⟨rfl, rfl, rfl, by decide⟩

/-- C4 as amended: the updates selected for display are the first at most
3 updates of the incident in feed order — a plain truncation, with no
re-ordering. -/
theorem summarizeUpdates_take (us : List IncidentUpdate) :
    summarizeUpdates us = us.take 3 := by
  unfold summarizeUpdates maxIncidentUpdates
  by_cases h : us.length ≤ 3
  · rw [if_pos h, List.take_of_length_le h]
  · rw [if_neg h]

def c5Incident : Incident := { emptyIncident with id := "dup", name := "Dup" }

/-- C5 counterexample.  The claim: in every rendered incident list — the
Active list included — at most one incident per non-empty id appears.  The
Active list of `buildReport` (`report.go`) is sorted but never
deduplicated: a feed that repeats an incident with the non-empty id `dup`
yields an Active list containing it twice. -/
theorem active_list_not_deduplicated :
    buildReport ⟨.ok [apiComponent], .ok [c5Incident, c5Incident], .ok []⟩
        ⟨true, false, false, outputText⟩ 0 =
      .ok ⟨[apiComponent], [c5Incident, c5Incident], []⟩ ∧
    c5Incident.id ≠ "" :=
  ⟨rfl, by decide⟩

/-- C5 as amended: the *Resolved* list of a built report never contains
two incidents sharing a non-empty id (the filter keeps the first feed
occurrence), and the deduplicating resolved filter is idempotent on every
input list; the Active list is not deduplicated. -/
theorem resolved_dedup_and_idempotent :
    (∀ (data : ClientData) (cfg : Config) (cutoff : Int) (rep : Report),
      buildReport data cfg cutoff = .ok rep →
      rep.resolved.Pairwise (fun a b => a.id = "" ∨ a.id ≠ b.id)) ∧
    (∀ (cutoff : Int) (feed : List Incident),
      recentResolvedIncidents cutoff (recentResolvedIncidents cutoff feed) =
        recentResolvedIncidents cutoff feed) := by
  constructor
  · intro data cfg cutoff rep h
    obtain ⟨-, -, -, hres_t, hres_f⟩ := buildReport_ok_inv data cfg cutoff rep h
    cases hb : cfg.showResolved || (cfg.output == outputJSON) with
    | true =>
      obtain ⟨feed, -, hrep⟩ := hres_t hb
      rw [hrep]
      exact sortIncidents_pairwise_ids _ (recentResolvedLoop_pairwise cutoff feed [])
    | false =>
      rw [hres_f hb]
      exact List.Pairwise.nil
  · intro cutoff feed
    unfold recentResolvedIncidents
    apply recentResolvedLoop_fixed
    · intro x hx
      obtain ⟨-, h1, h2⟩ := recentResolvedLoop_mem cutoff feed [] x hx
      exact ⟨h1, h2, fun _ => List.not_mem_nil _⟩
    · exact recentResolvedLoop_pairwise cutoff feed []

/-- Witness for C5 (amended): the dedup part applied to a concrete
successful build whose resolved list is non-empty. -/
theorem resolved_dedup_and_idempotent_witness :
    ([{ emptyIncident with id := "r1", status := "resolved" }] :
        List Incident).Pairwise (fun a b => a.id = "" ∨ a.id ≠ b.id) :=
  resolved_dedup_and_idempotent.1
    ⟨.ok [apiComponent], .ok [],
      .ok [{ emptyIncident with id := "r1", status := "resolved" }]⟩
    ⟨false, true, false, outputText⟩ 0
    ⟨[apiComponent], [], [{ emptyIncident with id := "r1", status := "resolved" }]⟩
    rfl

/-- C6 counterexample.  The claim: the unresolved incidents are fetched
(and Active populated) whenever details *or resolved* or JSON output is
requested; in particular a resolved-only text run still populates Active.
On the code (`buildReport`, `report.go`), `includeActive` is
`showDetails || output == json` — the resolved flag alone does not trigger
the fetch: with the resolved flag set in text mode and an active endpoint
that *fails*, the build still succeeds, with an empty Active list. -/
theorem buildReport_resolved_only_skips_active :
    buildReport ⟨.ok [apiComponent], .error "boom", .ok []⟩
        ⟨false, true, false, outputText⟩ 0 =
      .ok ⟨[apiComponent], [], []⟩ :=
  rfl

/-- C6 as amended: `buildReport` consults the unresolved-incident fetch
exactly when the details flag is set or JSON output is requested: when the
condition is false the result does not depend on that fetch at all and
Active is empty; when it is true a successful build means the fetch
succeeded and Active is its sorted result. -/
theorem buildReport_active_exactly_when (data : ClientData) (cfg : Config)
    (cutoff : Int) :
    ((cfg.showDetails || (cfg.output == outputJSON)) = false →
      (∀ x, buildReport { data with activeIncidents := x } cfg cutoff =
        buildReport data cfg cutoff) ∧
      (∀ rep, buildReport data cfg cutoff = .ok rep → rep.active = [])) ∧
    ((cfg.showDetails || (cfg.output == outputJSON)) = true →
      ∀ rep, buildReport data cfg cutoff = .ok rep →
        ∃ active, data.activeIncidents = .ok active ∧
          rep.active = sortIncidents active) := by
  constructor
  · intro hfalse
    constructor
    · intro x
      cases data with
      | mk comps act all =>
        unfold buildReport
        cases comps with
        | error e => rfl
        | ok cs =>
          simp only [hfalse, Bool.false_eq_true, if_false]
    · intro rep h
      exact (buildReport_ok_inv data cfg cutoff rep h).2.2.1 hfalse
  · intro htrue rep h
    exact (buildReport_ok_inv data cfg cutoff rep h).2.1 htrue

/-- Witness for C6 (amended): the positive direction applied to a concrete
details-mode build. -/
theorem buildReport_active_exactly_when_witness :
    ∃ active, (Except.ok [] : Except String (List Incident)) = .ok active ∧
      ([] : List Incident) = sortIncidents active :=
  (buildReport_active_exactly_when ⟨.ok [apiComponent], .ok [], .ok []⟩
    ⟨true, false, false, outputText⟩ 0).2 rfl ⟨[apiComponent], [], []⟩ rfl

/-- C7 (code bug).  The claim — a non-429 4xx status is immediately
terminal, with no further attempt — matches the visible intent of
`fetchJSON` (`shouldRetryStatus` exists for exactly this decision), but
the early `return` guarding it only exits the response-handling closure,
after which the outer loop retries on *any* error.  Concretely: with 3
attempts allowed and a server that always answers 404 — for which
`shouldRetryStatus` is false — all 3 attempts are consumed, with backoff
sleeps of 300ms and 600ms between them, before the 404 error is
returned. -/
theorem fetchJSON_retries_terminal_status :
    fetchJSON (fun _ => .response 404 true) 3 =
      (some (.statusError 404), 3, [300, 600]) ∧
    shouldRetryStatus 404 = false :=
  ⟨rfl, rfl⟩

/-- C8: the report's component list is exactly the fetched components with
group containers and the case-insensitive sentinel reference entry
removed, sorted by case-insensitive name ascending; retained components
are input elements, unchanged. -/
theorem filterComponents_spec (cs : List Component) :
    (filterComponents cs).Perm
      (cs.filter fun c => !c.group && !(eqFold c.name referenceComponent)) ∧
    (filterComponents cs).Sorted componentLE ∧
    (∀ c : Component, c ∈ filterComponents cs ↔
      c ∈ cs ∧ c.group = false ∧ eqFold c.name referenceComponent = false) := by
  refine ⟨List.perm_insertionSort _ _, List.sorted_insertionSort _ _, fun c => ?_⟩
  unfold filterComponents
  rw [(List.perm_insertionSort componentLE _).mem_iff, List.mem_filter]
  unfold keepComponent
  constructor
  · rintro ⟨h1, h2⟩
    simp only [Bool.and_eq_true, Bool.not_eq_true'] at h2
    exact ⟨h1, h2.1, h2.2⟩
  · rintro ⟨h1, h2, h3⟩
    refine ⟨h1, ?_⟩
    simp [h2, h3]

/-- C9: when the filtered component list is empty, `buildReport` fails
with the fatal no-components error and no report is produced; conversely a
produced report always carries a non-empty component list. -/
theorem buildReport_requires_components (data : ClientData) (cfg : Config)
    (cutoff : Int) :
    (∀ comps, data.components = .ok comps → filterComponents comps = [] →
      buildReport data cfg cutoff = .error "github status returned no components") ∧
    (∀ rep, buildReport data cfg cutoff = .ok rep → rep.components ≠ []) := by
  constructor
  · intro comps hc hf
    simp [buildReport, hc, hf]
  · intro rep h
    obtain ⟨comps, -, hrepc, hlen⟩ := (buildReport_ok_inv data cfg cutoff rep h).1
    rw [hrepc]
    intro hnil
    exact hlen (by rw [hnil]; rfl)

/-- Witness for C9: the failure direction on an empty upstream component
list, and the success direction on a one-component build. -/
theorem buildReport_requires_components_witness :
    buildReport ⟨.ok [], .ok [], .ok []⟩ ⟨false, false, false, outputText⟩ 0 =
      .error "github status returned no components" ∧
    Report.components ⟨[apiComponent], [], []⟩ ≠ [] :=
  ⟨(buildReport_requires_components ⟨.ok [], .ok [], .ok []⟩
      ⟨false, false, false, outputText⟩ 0).1 [] rfl rfl,
    (buildReport_requires_components ⟨.ok [apiComponent], .ok [], .ok []⟩
      ⟨false, false, false, outputText⟩ 0).2 ⟨[apiComponent], [], []⟩ rfl⟩

/-- C10: `sortIncidents` returns a permutation of its input — no incident
is added, dropped, or modified.  (Non-mutation of the caller's slice is
the copy the source makes before sorting; in this pure embedding
`sortIncidents` is a function of the input list, which it leaves
untouched.) -/
theorem sortIncidents_perm (l : List Incident) : (sortIncidents l).Perm l :=
  List.perm_insertionSort incidentLE l

end GhDown
